import Mathlib

/-!
Verification of the nullable-column wrapper of this repository
(`src/Columns/ColumnNullable.h`). A `ColumnNullable` owns a nested value
column together with a byte map (`null_map`) of equal length marking which
rows are NULL. We embed the data model and the operations the claims need.
Operation bodies that are inline in the header are translated from the
source; bodies that live in `ColumnNullable.cpp` (not part of this
excerpt) are modelled from the spec and marked as such.
-/

namespace ColumnNullableSpec

/-- Interface of the nested value store: the operations of the wrapped
column (declared in `IColumn.h`) that `ColumnNullable` delegates to.
The store itself is a list of values of type `α`; these are the
per-value primitives. -/
structure NestedOps (α : Type) where
  defaultVal : α
  getBool : α → Bool
  get64 : α → Nat
  getDataAt : α → List Nat
  compare : α → α → Int
  serialize : α → List Nat
  deserialize : List Nat → Option (α × List Nat)
  structureEquals : List α → List α → Bool

/-- A nullable column: an ordinary column of values together with a byte
map (one byte per row; non-zero byte means the row is NULL), as in
`src/Columns/ColumnNullable.h`. -/
structure ColumnNullable (α : Type) where
  nested_column : List α
  null_map : List Nat

/-- A column handed to `structureEquals`, which may or may not be a
nullable wrapper (the source does a `typeid_cast` on the argument). -/
inductive AnyColumn (α : Type) where
  | nullable (c : ColumnNullable α)
  | plain (data : List α)

/-- The invariant of the data model: the nested value store and the null
map have the same length. -/
def wellFormed {α : Type} (c : ColumnNullable α) : Prop :=
  c.nested_column.length = c.null_map.length

/-- An empty nullable column. -/
def emptyColumn (α : Type) : ColumnNullable α := ⟨[], []⟩

namespace ColumnNullable

/-- Source: `size() { return nested_column->size(); }`. -/
def size {α : Type} (c : ColumnNullable α) : Nat :=
  c.nested_column.length

/-- Source: `isNullAt(n) { return ... null_map ... getData()[n] != 0; }`. -/
def isNullAt {α : Type} (c : ColumnNullable α) (n : Nat) : Bool :=
  c.null_map.getD n 0 != 0

/-- Source: `getBool(n) { return isNullAt(n) ? false : nested_column->getBool(n); }`. -/
def getBool {α : Type} (ops : NestedOps α) (c : ColumnNullable α) (n : Nat) : Bool :=
  if c.isNullAt n then false else ops.getBool (c.nested_column.getD n ops.defaultVal)

/-- Source: `get64(n) { return nested_column->get64(n); }`. -/
def get64 {α : Type} (ops : NestedOps α) (c : ColumnNullable α) (n : Nat) : Nat :=
  ops.get64 (c.nested_column.getD n ops.defaultVal)

/-- Modelled from the spec: the sentinel `EMPTY_STRING_REF` (declared in
`IColumn.h`, not part of this excerpt) marking absent data; we model a
`StringRef` as `Option (List Nat)` and the sentinel as `none`, distinct
from every reference produced by the nested store. -/
def EMPTY_STRING_REF : Option (List Nat) := none

/-- Source: `getDataAt(n)`: if `isNullAt(n)` returns `EMPTY_STRING_REF`,
otherwise the nested column's `getDataAt(n)`. -/
def getDataAt {α : Type} (ops : NestedOps α) (c : ColumnNullable α) (n : Nat) :
    Option (List Nat) :=
  if c.isNullAt n then EMPTY_STRING_REF
  else some (ops.getDataAt (c.nested_column.getD n ops.defaultVal))

/-- Source: `insertDefault() { getNestedColumn().insertDefault(); getNullMapData().push_back(1); }`. -/
def insertDefault {α : Type} (ops : NestedOps α) (c : ColumnNullable α) : ColumnNullable α :=
  ⟨c.nested_column ++ [ops.defaultVal], c.null_map ++ [1]⟩

/-- Source: `structureEquals(rhs)`: `typeid_cast` the argument to a
nullable column; if it is one, compare the nested columns structurally,
otherwise return false. -/
def structureEquals {α : Type} (ops : NestedOps α) (c : ColumnNullable α)
    (rhs : AnyColumn α) : Bool :=
  match rhs with
  | .nullable r => ops.structureEquals c.nested_column r.nested_column
  | .plain _ => false

/-- The logical value of row `n`: NULL (`none`) when the null-map byte is
set, otherwise the nested value (the behaviour of `operator[]` /
`get`, which return a Null `Field` for null rows). -/
def getField {α : Type} (ops : NestedOps α) (c : ColumnNullable α) (n : Nat) : Option α :=
  if c.isNullAt n then none else some (c.nested_column.getD n ops.defaultVal)

/-- Modelled from the spec: `insert(x)` (body in `ColumnNullable.cpp`,
not part of this excerpt) appends a row; a NULL field appends the nested
default value with null byte 1, a non-NULL field appends the value with
null byte 0, keeping the two vectors synchronized. -/
def insert {α : Type} (ops : NestedOps α) (c : ColumnNullable α) (x : Option α) :
    ColumnNullable α :=
  match x with
  | none => ⟨c.nested_column ++ [ops.defaultVal], c.null_map ++ [1]⟩
  | some v => ⟨c.nested_column ++ [v], c.null_map ++ [0]⟩

/-- Modelled from the spec: `compareAtImpl` (body in
`ColumnNullable.cpp`, not part of this excerpt): if both rows are null
the result is 0; if only this row is null it sorts per
`null_direction_hint`; if only the other row is null, the opposite;
otherwise the nested store's three-way comparison decides. -/
def compareAt {α : Type} (ops : NestedOps α) (c : ColumnNullable α) (n m : Nat)
    (rhs : ColumnNullable α) (null_direction_hint : Int) : Int :=
  if c.isNullAt n then
    if rhs.isNullAt m then 0 else null_direction_hint
  else if rhs.isNullAt m then -null_direction_hint
  else ops.compare (c.nested_column.getD n ops.defaultVal)
                   (rhs.nested_column.getD m ops.defaultVal)

/-- The `null_direction_hint` for nulls-first ordering. -/
def nullsFirst : Int := -1

/-- The `null_direction_hint` for nulls-last ordering. -/
def nullsLast : Int := 1

/-- Keep the entries of a list whose mask byte is truthy (non-zero);
the elementary row-filter both sub-columns undergo. -/
def filterMask {β : Type} : List β → List Nat → List β
  | [], _ => []
  | _ :: _, [] => []
  | x :: xs, b :: bs => if b != 0 then x :: filterMask xs bs else filterMask xs bs

/-- Number of truthy (non-zero) bytes of a filter mask. -/
def countTruthy : List Nat → Nat
  | [] => 0
  | b :: bs => (if b != 0 then 1 else 0) + countTruthy bs

/-- Modelled from the spec: `filter(mask, size_hint)` (body in
`ColumnNullable.cpp`, not part of this excerpt) keeps the rows whose mask
byte is truthy, applying the same filter to the nested column and the
null map; `size_hint` is only a preallocation hint and does not affect
the result. -/
def filter {α : Type} (c : ColumnNullable α) (mask : List Nat)
    (size_hint : Int) : ColumnNullable α :=
  ⟨filterMask c.nested_column mask, filterMask c.null_map mask⟩

/-- Modelled from the spec: `permute(perm, limit)` (body in
`ColumnNullable.cpp`, not part of this excerpt) reorders rows so that
destination row `j` holds source row `perm[j]`, applied identically to
the nested column and the null map; with `limit > 0` only the first
`limit` destination rows are produced. -/
def permute {α : Type} (ops : NestedOps α) (c : ColumnNullable α)
    (perm : List Nat) (limit : Nat) : ColumnNullable α :=
  let p := if limit = 0 then perm else perm.take limit
  ⟨p.map (fun i => c.nested_column.getD i ops.defaultVal),
   p.map (fun i => c.null_map.getD i 0)⟩

/-- Expand a list by prefix-sum offsets: entry `i` is repeated
`offsets[i] - offsets[i-1]` times (`prev` carries `offsets[i-1]`). -/
def replicateList {β : Type} : List β → List Nat → Nat → List β
  | [], _, _ => []
  | _ :: _, [], _ => []
  | x :: xs, o :: os, prev => List.replicate (o - prev) x ++ replicateList xs os o

/-- Modelled from the spec: `replicate(offsets)` (body in
`ColumnNullable.cpp`, not part of this excerpt) repeats row `i` of both
sub-columns `offsets[i] - offsets[i-1]` times. -/
def replicate {α : Type} (c : ColumnNullable α) (offsets : List Nat) : ColumnNullable α :=
  ⟨replicateList c.nested_column offsets 0, replicateList c.null_map offsets 0⟩

/-- Modelled from the spec: `applyNullMap(map)` (body in
`ColumnNullable.cpp`, not part of this excerpt) ORs the external byte map
element-wise into this column's null map, leaving the nested column
untouched; mismatched sizes fail with a size-mismatch error (`none`). -/
def applyNullMap {α : Type} (c : ColumnNullable α) (m : List Nat) :
    Option (ColumnNullable α) :=
  if m.length = c.null_map.length then
    some ⟨c.nested_column, List.zipWith Nat.lor c.null_map m⟩
  else none

/-- Modelled from the spec: `applyNegatedNullMap(map)` (body in
`ColumnNullable.cpp`, not part of this excerpt) ORs the logical negation
of the external byte map element-wise into this column's null map,
leaving the nested column untouched; mismatched sizes fail (`none`). -/
def applyNegatedNullMap {α : Type} (c : ColumnNullable α) (m : List Nat) :
    Option (ColumnNullable α) :=
  if m.length = c.null_map.length then
    some ⟨c.nested_column,
          List.zipWith (fun a b => Nat.lor a (if b = 0 then 1 else 0)) c.null_map m⟩
  else none

/-- Modelled from the spec: `serializeValueIntoArena` (body in
`ColumnNullable.cpp`, not part of this excerpt) writes one null-indicator
byte and, only when the row is non-null, the nested store's serialization
of the value; the result is the written byte span. -/
def serializeValueIntoArena {α : Type} (ops : NestedOps α) (c : ColumnNullable α)
    (n : Nat) : List Nat :=
  if c.isNullAt n then [1]
  else 0 :: ops.serialize (c.nested_column.getD n ops.defaultVal)

/-- Modelled from the spec: `deserializeAndInsertFromArena(pos)` (body in
`ColumnNullable.cpp`, not part of this excerpt) reads the indicator byte;
if it is set, appends a default value marked null; otherwise delegates to
the nested store's decode and appends the value non-null. Returns the
new column and the position immediately following the consumed bytes. -/
def deserializeAndInsertFromArena {α : Type} (ops : NestedOps α)
    (c : ColumnNullable α) (bytes : List Nat) :
    Option (ColumnNullable α × List Nat) :=
  match bytes with
  | [] => none
  | b :: rest =>
    if b != 0 then
      some (⟨c.nested_column ++ [ops.defaultVal], c.null_map ++ [1]⟩, rest)
    else
      match ops.deserialize rest with
      | none => none
      | some (v, rest2) => some (⟨c.nested_column ++ [v], c.null_map ++ [0]⟩, rest2)

end ColumnNullable

/-- A concrete nested store over `Nat` values, used to witness the
theorems at concrete inputs. -/
def natOps : NestedOps Nat where
  defaultVal := 0
  getBool v := v != 0
  get64 v := v % (2 ^ 64)
  getDataAt v := [v % 256]
  compare a b := (a : Int) - (b : Int)
  serialize v := [v]
  deserialize bs :=
    match bs with
    | [] => none
    | b :: rest => some (b, rest)
  structureEquals _ _ := true

namespace ColumnNullable

theorem getD_map_of_lt {β γ : Type} (f : β → γ) (l : List β) (j : Nat) (d : γ) (d0 : β)
    (h : j < l.length) : (l.map f).getD j d = f (l.getD j d0) := by
  simp [List.getD_eq_getElem?_getD, List.getElem?_map, List.getElem?_eq_getElem, h]

theorem getD_concat_length {β : Type} (l : List β) (a : β) (d : β) :
    (l ++ [a]).getD l.length d = a := by
  simp [List.getD_eq_getElem?_getD, List.getElem?_concat_length]

theorem getD_zipWith_of_lt (f : Nat → Nat → Nat) (xs ys : List Nat) (i : Nat)
    (hx : i < xs.length) (hy : i < ys.length) :
    (List.zipWith f xs ys).getD i 0 = f (xs.getD i 0) (ys.getD i 0) := by
  have hz : i < (List.zipWith f xs ys).length := by
    simp only [List.length_zipWith]
    omega
  simp [List.getD_eq_getElem?_getD, List.getElem?_eq_getElem, hx, hy, hz,
    List.getElem_zipWith]

theorem filterMask_length {β : Type} :
    ∀ (xs : List β) (m : List Nat), xs.length = m.length →
      (filterMask xs m).length = countTruthy m := by
  intro xs
  induction xs with
  | nil =>
    intro m h
    cases m with
    | nil => rfl
    | cons b bs => simp at h
  | cons x xs ih =>
    intro m h
    cases m with
    | nil => simp at h
    | cons b bs =>
      have h2 : xs.length = bs.length := by simpa using h
      cases hb : b != 0 <;>
        simp [filterMask, countTruthy, hb, ih bs h2] <;> omega

theorem filterMask_length_congr {β γ : Type} :
    ∀ (xs : List β) (ys : List γ) (m : List Nat), xs.length = ys.length →
      (filterMask xs m).length = (filterMask ys m).length := by
  intro xs
  induction xs with
  | nil =>
    intro ys m h
    cases ys with
    | nil => rfl
    | cons y ys => simp at h
  | cons x xs ih =>
    intro ys m h
    cases ys with
    | nil => simp at h
    | cons y ys =>
      cases m with
      | nil => rfl
      | cons b bs =>
        have h2 : xs.length = ys.length := by simpa using h
        cases hb : b != 0 <;>
          simp [filterMask, hb, ih ys bs h2]

theorem filterMask_zip {β γ : Type} :
    ∀ (xs : List β) (ys : List γ) (m : List Nat), xs.length = ys.length →
      (filterMask xs m).zip (filterMask ys m) = filterMask (xs.zip ys) m := by
  intro xs
  induction xs with
  | nil =>
    intro ys m h
    simp [filterMask]
  | cons x xs ih =>
    intro ys m h
    cases ys with
    | nil => simp at h
    | cons y ys =>
      cases m with
      | nil => simp [filterMask]
      | cons b bs =>
        have h2 : xs.length = ys.length := by simpa using h
        cases hb : b != 0 <;>
          simp [filterMask, hb, ih ys bs h2] <;> rfl

theorem replicateList_length_congr {β γ : Type} :
    ∀ (xs : List β) (ys : List γ) (offs : List Nat) (p : Nat), xs.length = ys.length →
      (replicateList xs offs p).length = (replicateList ys offs p).length := by
  intro xs
  induction xs with
  | nil =>
    intro ys offs p h
    cases ys with
    | nil => rfl
    | cons y ys => simp at h
  | cons x xs ih =>
    intro ys offs p h
    cases ys with
    | nil => simp at h
    | cons y ys =>
      cases offs with
      | nil => rfl
      | cons o os =>
        have h2 : xs.length = ys.length := by simpa using h
        simp [replicateList, ih ys os o h2]

theorem insert_size {α : Type} (ops : NestedOps α) (dest : ColumnNullable α)
    (x : Option α) : (dest.insert ops x).size = dest.size + 1 := by
  cases x <;> simp [ColumnNullable.insert, ColumnNullable.size]

theorem insert_isNullAt_at_length {α : Type} (ops : NestedOps α)
    (dest : ColumnNullable α) (x : Option α) (hwd : wellFormed dest) :
    (dest.insert ops x).isNullAt dest.nested_column.length = x.isNone := by
  have hwd2 : dest.nested_column.length = dest.null_map.length := hwd
  cases x <;>
    simp [ColumnNullable.insert, ColumnNullable.isNullAt, hwd2, getD_concat_length]

theorem insert_getField_at_length {α : Type} (ops : NestedOps α)
    (dest : ColumnNullable α) (x : Option α) (hwd : wellFormed dest) :
    (dest.insert ops x).getField ops dest.nested_column.length = x := by
  have h1 := insert_isNullAt_at_length ops dest x hwd
  cases x with
  | none => simp [ColumnNullable.getField, h1]
  | some v =>
    have hwd2 : dest.nested_column.length = dest.null_map.length := hwd
    simp [ColumnNullable.getField, ColumnNullable.insert, ColumnNullable.isNullAt,
      hwd2, getD_concat_length]

theorem deserialize_wellFormed {α : Type} (ops : NestedOps α)
    (c c2 : ColumnNullable α) (bytes rest : List Nat) (hw : wellFormed c)
    (h : c.deserializeAndInsertFromArena ops bytes = some (c2, rest)) :
    wellFormed c2 := by
  match bytes with
  | [] => simp [ColumnNullable.deserializeAndInsertFromArena] at h
  | b :: bs =>
    simp only [ColumnNullable.deserializeAndInsertFromArena] at h
    by_cases hb : (b != 0) = true
    · rw [if_pos hb] at h
      simp only [Option.some.injEq, Prod.mk.injEq] at h
      obtain ⟨h1, h2⟩ := h
      subst h1
      simp only [wellFormed, List.length_append, List.length_singleton] at hw ⊢
      omega
    · rw [if_neg hb] at h
      cases hdes : ops.deserialize bs with
      | none =>
        rw [hdes] at h
        simp at h
      | some vp =>
        obtain ⟨v, rest2⟩ := vp
        rw [hdes] at h
        simp only [Option.some.injEq, Prod.mk.injEq] at h
        obtain ⟨h1, h2⟩ := h
        subst h1
        simp only [wellFormed, List.length_append, List.length_singleton] at hw ⊢
        omega

theorem deserialize_serialize {α : Type} (ops : NestedOps α)
    (hrt : ∀ (v : α) (r : List Nat), ops.deserialize (ops.serialize v ++ r) = some (v, r))
    (c dest : ColumnNullable α) (n : Nat) (rest : List Nat) :
    dest.deserializeAndInsertFromArena ops (c.serializeValueIntoArena ops n ++ rest)
      = some (dest.insert ops (c.getField ops n), rest) := by
  cases hn : c.isNullAt n with
  | true =>
    simp [ColumnNullable.serializeValueIntoArena, hn,
      ColumnNullable.deserializeAndInsertFromArena, ColumnNullable.getField,
      ColumnNullable.insert]
  | false =>
    simp [ColumnNullable.serializeValueIntoArena, hn,
      ColumnNullable.deserializeAndInsertFromArena, ColumnNullable.getField,
      ColumnNullable.insert, hrt]

theorem permute_isNullAt {α : Type} (ops : NestedOps α) (c : ColumnNullable α)
    (perm : List Nat) (j : Nat) (hj : j < perm.length) :
    (c.permute ops perm 0).isNullAt j = c.isNullAt (perm.getD j 0) := by
  show ((perm.map fun i => c.null_map.getD i 0).getD j 0 != 0)
    = (c.null_map.getD (perm.getD j 0) 0 != 0)
  rw [getD_map_of_lt (fun i => c.null_map.getD i 0) perm j 0 0 hj]

theorem permute_getD {α : Type} (ops : NestedOps α) (c : ColumnNullable α)
    (perm : List Nat) (j : Nat) (hj : j < perm.length) :
    (c.permute ops perm 0).nested_column.getD j ops.defaultVal
      = c.nested_column.getD (perm.getD j 0) ops.defaultVal := by
  show (perm.map fun i => c.nested_column.getD i ops.defaultVal).getD j ops.defaultVal
    = c.nested_column.getD (perm.getD j 0) ops.defaultVal
  rw [getD_map_of_lt (fun i => c.nested_column.getD i ops.defaultVal) perm j
    ops.defaultVal 0 hj]

end ColumnNullable

open ColumnNullable

/-- Claim C6: insertDefault() appends the nested store's default value to the
nested column and appends the byte 1 to the null map; on an empty column the
size becomes 1 with isNullAt(0) true and the underlying value equal to the
nested default. -/
theorem C6_insertDefault (α : Type) (ops : NestedOps α) :
    (∀ c : ColumnNullable α,
        (c.insertDefault ops).nested_column = c.nested_column ++ [ops.defaultVal]
        ∧ (c.insertDefault ops).null_map = c.null_map ++ [1])
    ∧ ((emptyColumn α).insertDefault ops).size = 1
    ∧ ((emptyColumn α).insertDefault ops).isNullAt 0 = true
    ∧ ((emptyColumn α).insertDefault ops).nested_column.getD 0 ops.defaultVal
        = ops.defaultVal := by
  refine ⟨fun c => ⟨rfl, rfl⟩, ?_, ?_, ?_⟩ <;>
    simp [ColumnNullable.insertDefault, ColumnNullable.size, ColumnNullable.isNullAt,
      emptyColumn]

/-- Claim C7: for row < size(), isNullAt(row) is true iff the null-map byte at
position row is non-zero, the access being in bounds under that
precondition (together with the length invariant). -/
theorem C7_isNullAt (α : Type) (c : ColumnNullable α) (row : Nat)
    (hw : wellFormed c) (h : row < c.size) :
    ∃ hb : row < c.null_map.length,
      (c.isNullAt row = true ↔ c.null_map.get ⟨row, hb⟩ ≠ 0) := by
  have hb : row < c.null_map.length := by
    unfold wellFormed at hw
    unfold ColumnNullable.size at h
    omega
  refine ⟨hb, ?_⟩
  simp [ColumnNullable.isNullAt, List.getD_eq_getElem?_getD,
    List.getElem?_eq_getElem, hb]

theorem C7_isNullAt_witness :
    ∃ hb : 0 < (⟨[5], [1]⟩ : ColumnNullable Nat).null_map.length,
      ((⟨[5], [1]⟩ : ColumnNullable Nat).isNullAt 0 = true
        ↔ (⟨[5], [1]⟩ : ColumnNullable Nat).null_map.get ⟨0, hb⟩ ≠ 0) :=
  C7_isNullAt Nat ⟨[5], [1]⟩ 0 rfl (by decide)

/-- Claim C8: structureEquals(rhs) is true iff rhs is itself a nullable
wrapper whose nested store is structurally equal to this one's; the null
maps of either column never affect the result. -/
theorem C8_structureEquals (α : Type) (ops : NestedOps α) :
    (∀ (c : ColumnNullable α) (rhs : AnyColumn α),
      (c.structureEquals ops rhs = true ↔
        ∃ r : ColumnNullable α, rhs = AnyColumn.nullable r
          ∧ ops.structureEquals c.nested_column r.nested_column = true))
    ∧ (∀ (ns ns2 : List α) (nm1 nm2 nm1b nm2b : List Nat),
        ColumnNullable.structureEquals ops ⟨ns, nm1⟩ (AnyColumn.nullable ⟨ns2, nm2⟩)
          = ColumnNullable.structureEquals ops ⟨ns, nm1b⟩
              (AnyColumn.nullable ⟨ns2, nm2b⟩)) := by
  refine ⟨fun c rhs => ?_, fun ns ns2 nm1 nm2 nm1b nm2b => rfl⟩
  cases rhs with
  | nullable r =>
    simp only [ColumnNullable.structureEquals]
    constructor
    · intro hres
      exact ⟨r, rfl, hres⟩
    · rintro ⟨r2, heq, hres⟩
      cases heq
      exact hres
  | plain d =>
    simp [ColumnNullable.structureEquals]

/-- Claim C9: for a valid row n, getDataAt(n) returns the sentinel
EMPTY_STRING_REF when the row is null, and the nested column's getDataAt(n)
when it is not. -/
theorem C9_getDataAt (α : Type) (ops : NestedOps α) (c : ColumnNullable α) (n : Nat)
    (h : n < c.size) :
    (c.isNullAt n = true → c.getDataAt ops n = EMPTY_STRING_REF)
    ∧ (c.isNullAt n = false →
        c.getDataAt ops n
          = some (ops.getDataAt (c.nested_column.getD n ops.defaultVal))) := by
  constructor <;> intro hn <;> simp [ColumnNullable.getDataAt, hn]

theorem C9_getDataAt_witness :
    (⟨[5], [1]⟩ : ColumnNullable Nat).getDataAt natOps 0 = EMPTY_STRING_REF :=
  (C9_getDataAt Nat natOps ⟨[5], [1]⟩ 0 (by decide)).1 (by decide)

/-- Claim C10: get64(n) returns the nested column's get64(n) unconditionally,
ignoring the null map (a null row yields the nested padding payload), whereas
getBool(n) checks the null map, returning false on null rows and delegating to
the nested store otherwise. -/
theorem C10_get64_getBool (α : Type) (ops : NestedOps α) :
    (∀ (ns : List α) (nm nm2 : List Nat) (n : Nat),
        ColumnNullable.get64 ops ⟨ns, nm⟩ n = ColumnNullable.get64 ops ⟨ns, nm2⟩ n)
    ∧ (∀ (c : ColumnNullable α) (n : Nat),
        c.get64 ops n = ops.get64 (c.nested_column.getD n ops.defaultVal))
    ∧ (∀ (c : ColumnNullable α) (n : Nat),
        c.isNullAt n = true → c.getBool ops n = false)
    ∧ (∀ (c : ColumnNullable α) (n : Nat), c.isNullAt n = false →
        c.getBool ops n = ops.getBool (c.nested_column.getD n ops.defaultVal)) := by
  refine ⟨fun ns nm nm2 n => rfl, fun c n => rfl, fun c n hn => ?_, fun c n hn => ?_⟩ <;>
    simp [ColumnNullable.getBool, hn]

theorem C10_get64_getBool_witness :
    (⟨[7], [1]⟩ : ColumnNullable Nat).getBool natOps 0 = false :=
  (C10_get64_getBool Nat natOps).2.2.1 ⟨[7], [1]⟩ 0 (by decide)

/-- Claim C2: compareAt on valid rows returns 0 when both rows are null; when
exactly one row is null, the null row compares as lesser under nulls-first and
as greater under nulls-last, regardless of the value type; when neither row is
null the result is the nested store's compareAt on the two rows. -/
theorem C2_compareAt (α : Type) (ops : NestedOps α) (c rhs : ColumnNullable α)
    (n m : Nat) (hn : n < c.size) (hm : m < rhs.size) :
    (c.isNullAt n = true → rhs.isNullAt m = true →
      ∀ hint : Int, c.compareAt ops n m rhs hint = 0)
    ∧ (c.isNullAt n = true → rhs.isNullAt m = false →
      c.compareAt ops n m rhs nullsFirst < 0
      ∧ 0 < c.compareAt ops n m rhs nullsLast)
    ∧ (c.isNullAt n = false → rhs.isNullAt m = true →
      0 < c.compareAt ops n m rhs nullsFirst
      ∧ c.compareAt ops n m rhs nullsLast < 0)
    ∧ (c.isNullAt n = false → rhs.isNullAt m = false →
      ∀ hint : Int, c.compareAt ops n m rhs hint
        = ops.compare (c.nested_column.getD n ops.defaultVal)
                      (rhs.nested_column.getD m ops.defaultVal)) := by
  refine ⟨fun h1 h2 hint => ?_, fun h1 h2 => ?_, fun h1 h2 => ?_, fun h1 h2 hint => ?_⟩ <;>
    simp [ColumnNullable.compareAt, h1, h2, nullsFirst, nullsLast]

theorem C2_compareAt_witness :
    ColumnNullable.compareAt natOps ⟨[1, 2], [0, 1]⟩ 1 0 ⟨[3], [0]⟩ nullsFirst < 0 :=
  ((C2_compareAt Nat natOps ⟨[1, 2], [0, 1]⟩ ⟨[3], [0]⟩ 1 0 (by decide)
      (by decide)).2.1 (by decide) (by decide)).1

/-- Claim C1: len(nested) == len(null_map) holds on the empty column and after
every public operation (insert, insertDefault, filter, permute, replicate,
applyNullMap, applyNegatedNullMap, deserializeAndInsertFromArena), and size()
reports this common length. -/
theorem C1_length_invariant (α : Type) (ops : NestedOps α) :
    wellFormed (emptyColumn α)
    ∧ (∀ c : ColumnNullable α, wellFormed c →
        c.size = c.nested_column.length ∧ c.size = c.null_map.length)
    ∧ (∀ (c : ColumnNullable α) (x : Option α), wellFormed c →
        wellFormed (c.insert ops x))
    ∧ (∀ c : ColumnNullable α, wellFormed c → wellFormed (c.insertDefault ops))
    ∧ (∀ (c : ColumnNullable α) (mask : List Nat) (hint : Int), wellFormed c →
        wellFormed (c.filter mask hint))
    ∧ (∀ (c : ColumnNullable α) (perm : List Nat) (limit : Nat),
        wellFormed (c.permute ops perm limit))
    ∧ (∀ (c : ColumnNullable α) (offsets : List Nat), wellFormed c →
        wellFormed (c.replicate offsets))
    ∧ (∀ (c c2 : ColumnNullable α) (m : List Nat), wellFormed c →
        c.applyNullMap m = some c2 → wellFormed c2)
    ∧ (∀ (c c2 : ColumnNullable α) (m : List Nat), wellFormed c →
        c.applyNegatedNullMap m = some c2 → wellFormed c2)
    ∧ (∀ (c c2 : ColumnNullable α) (bytes rest : List Nat), wellFormed c →
        c.deserializeAndInsertFromArena ops bytes = some (c2, rest) →
        wellFormed c2) := by
  refine ⟨rfl, ?_, ?_, ?_, ?_, ?_, ?_, ?_, ?_, ?_⟩
  · intro c hw
    exact ⟨rfl, hw⟩
  · intro c x hw
    cases x <;>
      simp only [ColumnNullable.insert, wellFormed, List.length_append,
        List.length_singleton] at hw ⊢ <;> omega
  · intro c hw
    simp only [ColumnNullable.insertDefault, wellFormed, List.length_append,
      List.length_singleton] at hw ⊢
    omega
  · intro c mask hint hw
    exact filterMask_length_congr c.nested_column c.null_map mask hw
  · intro c perm limit
    simp [ColumnNullable.permute, wellFormed]
  · intro c offsets hw
    exact replicateList_length_congr c.nested_column c.null_map offsets 0 hw
  · intro c c2 m hw h
    simp only [ColumnNullable.applyNullMap] at h
    by_cases hlen : m.length = c.null_map.length
    · rw [if_pos hlen] at h
      simp only [Option.some.injEq] at h
      subst h
      simp only [wellFormed, List.length_zipWith] at hw ⊢
      omega
    · rw [if_neg hlen] at h
      simp at h
  · intro c c2 m hw h
    simp only [ColumnNullable.applyNegatedNullMap] at h
    by_cases hlen : m.length = c.null_map.length
    · rw [if_pos hlen] at h
      simp only [Option.some.injEq] at h
      subst h
      simp only [wellFormed, List.length_zipWith] at hw ⊢
      omega
    · rw [if_neg hlen] at h
      simp at h
  · intro c c2 bytes rest hw h
    exact deserialize_wellFormed ops c c2 bytes rest hw h

theorem C1_length_invariant_witness :
    wellFormed (ColumnNullable.insertDefault natOps ⟨[5], [0]⟩) :=
  (C1_length_invariant Nat natOps).2.2.2.1 ⟨[5], [0]⟩ rfl

/-- Claim C3: for every valid row r, serializing the row and deserializing
from the returned position appends a row whose (isNullAt, logical value) pair
equals the original; the encoding is one null-indicator byte followed by the
nested serialization only when the row is non-null, and deserializing a null
row appends a default value marked null. The hypothesis hrt is the nested
store's own decode/encode round-trip contract. -/
theorem C3_serialization_roundtrip (α : Type) (ops : NestedOps α)
    (c dest : ColumnNullable α) (n : Nat) (rest : List Nat)
    (hw : wellFormed c) (hwd : wellFormed dest) (hn : n < c.size)
    (hrt : ∀ (v : α) (r : List Nat),
      ops.deserialize (ops.serialize v ++ r) = some (v, r)) :
    (c.serializeValueIntoArena ops n
        = (if c.isNullAt n then 1 else 0)
          :: (if c.isNullAt n then []
              else ops.serialize (c.nested_column.getD n ops.defaultVal)))
    ∧ dest.deserializeAndInsertFromArena ops (c.serializeValueIntoArena ops n ++ rest)
        = some (dest.insert ops (c.getField ops n), rest)
    ∧ (dest.insert ops (c.getField ops n)).size = dest.size + 1
    ∧ (dest.insert ops (c.getField ops n)).isNullAt dest.size = c.isNullAt n
    ∧ (dest.insert ops (c.getField ops n)).getField ops dest.size = c.getField ops n
    ∧ (c.isNullAt n = true →
        (dest.insert ops (c.getField ops n)).nested_column
          = dest.nested_column ++ [ops.defaultVal]) := by
  refine ⟨?_, deserialize_serialize ops hrt c dest n rest,
    insert_size ops dest (c.getField ops n), ?_, ?_, ?_⟩
  · cases hnb : c.isNullAt n <;>
      simp [ColumnNullable.serializeValueIntoArena, hnb]
  · have h1 := insert_isNullAt_at_length ops dest (c.getField ops n) hwd
    have h2 : (c.getField ops n).isNone = c.isNullAt n := by
      cases hnb : c.isNullAt n <;> simp [ColumnNullable.getField, hnb]
    exact h1.trans h2
  · exact insert_getField_at_length ops dest (c.getField ops n) hwd
  · intro hnull
    simp [ColumnNullable.getField, hnull, ColumnNullable.insert]

theorem C3_serialization_roundtrip_witness :
    ColumnNullable.deserializeAndInsertFromArena natOps (emptyColumn Nat)
        (ColumnNullable.serializeValueIntoArena natOps ⟨[7], [0]⟩ 0 ++ [9])
      = some (ColumnNullable.insert natOps (emptyColumn Nat)
          (ColumnNullable.getField natOps ⟨[7], [0]⟩ 0), [9]) :=
  (C3_serialization_roundtrip Nat natOps ⟨[7], [0]⟩ (emptyColumn Nat) 0 [9] rfl rfl
    (by decide) (fun v r => rfl)).2.1

/-- Claim C4: filter over an equal-length mask yields a column of size equal
to the number of truthy mask bytes, independent of size_hint, preserving each
surviving row's (isNullAt, value) pair in order; permute by a permutation of
all rows with limit 0 yields a column of the same size, with destination row
j carrying source row perm[j]'s (isNullAt, value) pair. -/
theorem C4_filter_permute (α : Type) (ops : NestedOps α) :
    (∀ (c : ColumnNullable α) (mask : List Nat) (hint hint2 : Int),
        wellFormed c → mask.length = c.size →
        (c.filter mask hint).size = countTruthy mask
        ∧ c.filter mask hint = c.filter mask hint2
        ∧ (c.filter mask hint).nested_column.zip (c.filter mask hint).null_map
            = filterMask (c.nested_column.zip c.null_map) mask)
    ∧ (∀ (c : ColumnNullable α) (perm : List Nat),
        wellFormed c → perm.length = c.size → (∀ i ∈ perm, i < c.size) →
        (c.permute ops perm 0).size = c.size
        ∧ ∀ j, j < perm.length →
            (c.permute ops perm 0).isNullAt j = c.isNullAt (perm.getD j 0)
            ∧ (c.permute ops perm 0).nested_column.getD j ops.defaultVal
                = c.nested_column.getD (perm.getD j 0) ops.defaultVal) := by
  constructor
  · intro c mask hint hint2 hw hmask
    have hx : c.nested_column.length = mask.length := by
      unfold ColumnNullable.size at hmask
      omega
    exact ⟨filterMask_length c.nested_column mask hx, rfl,
      filterMask_zip c.nested_column c.null_map mask hw⟩
  · intro c perm hw hperm hbound
    refine ⟨?_, fun j hj =>
      ⟨permute_isNullAt ops c perm j hj, permute_getD ops c perm j hj⟩⟩
    simp only [ColumnNullable.permute, ColumnNullable.size, List.length_map]
    simpa [ColumnNullable.size] using hperm

theorem C4_filter_permute_witness :
    (ColumnNullable.filter (⟨[1, 2, 3], [0, 1, 0]⟩ : ColumnNullable Nat)
        [1, 0, 1] 5).size = countTruthy [1, 0, 1] :=
  ((C4_filter_permute Nat natOps).1 ⟨[1, 2, 3], [0, 1, 0]⟩ [1, 0, 1] 5 7 rfl
    (by decide)).1

/-- Claim C5: applyNullMap (resp. applyNegatedNullMap) ORs the external byte
map (resp. the logical negation of it) element-wise into the null map, leaves
the nested column unchanged, and fails with a size-mismatch error when the
external map's length differs from the column's length; external map
[0,1,0] applied to null map [0,0,1] yields [0,1,1]. -/
theorem C5_applyNullMap (α : Type) :
    (∀ (c c2 : ColumnNullable α) (m : List Nat),
        c.applyNullMap m = some c2 →
        c2.nested_column = c.nested_column
        ∧ c2.null_map.length = c.null_map.length
        ∧ ∀ i, i < c.null_map.length →
            c2.null_map.getD i 0 = Nat.lor (c.null_map.getD i 0) (m.getD i 0))
    ∧ (∀ (c : ColumnNullable α) (m : List Nat), wellFormed c →
        m.length ≠ c.size → c.applyNullMap m = none)
    ∧ (∀ (c c2 : ColumnNullable α) (m : List Nat),
        c.applyNegatedNullMap m = some c2 →
        c2.nested_column = c.nested_column
        ∧ c2.null_map.length = c.null_map.length
        ∧ ∀ i, i < c.null_map.length →
            c2.null_map.getD i 0
              = Nat.lor (c.null_map.getD i 0) (if m.getD i 0 = 0 then 1 else 0))
    ∧ (∀ (c : ColumnNullable α) (m : List Nat), wellFormed c →
        m.length ≠ c.size → c.applyNegatedNullMap m = none)
    ∧ (∀ ns : List α,
        ColumnNullable.applyNullMap ⟨ns, [0, 0, 1]⟩ [0, 1, 0]
          = some ⟨ns, [0, 1, 1]⟩) := by
  refine ⟨?_, ?_, ?_, ?_, ?_⟩
  · intro c c2 m h
    simp only [ColumnNullable.applyNullMap] at h
    by_cases hlen : m.length = c.null_map.length
    · rw [if_pos hlen] at h
      simp only [Option.some.injEq] at h
      subst h
      refine ⟨rfl, ?_, ?_⟩
      · simp only [List.length_zipWith]
        omega
      · intro i hi
        exact getD_zipWith_of_lt Nat.lor c.null_map m i hi (by omega)
    · rw [if_neg hlen] at h
      simp at h
  · intro c m hw hm
    have hne : ¬ m.length = c.null_map.length := by
      unfold wellFormed at hw
      unfold ColumnNullable.size at hm
      omega
    simp [ColumnNullable.applyNullMap, hne]
  · intro c c2 m h
    simp only [ColumnNullable.applyNegatedNullMap] at h
    by_cases hlen : m.length = c.null_map.length
    · rw [if_pos hlen] at h
      simp only [Option.some.injEq] at h
      subst h
      refine ⟨rfl, ?_, ?_⟩
      · simp only [List.length_zipWith]
        omega
      · intro i hi
        exact getD_zipWith_of_lt (fun a b => Nat.lor a (if b = 0 then 1 else 0))
          c.null_map m i hi (by omega)
    · rw [if_neg hlen] at h
      simp at h
  · intro c m hw hm
    have hne : ¬ m.length = c.null_map.length := by
      unfold wellFormed at hw
      unfold ColumnNullable.size at hm
      omega
    simp [ColumnNullable.applyNegatedNullMap, hne]
  · intro ns
    simp [ColumnNullable.applyNullMap]
    decide

theorem C5_applyNullMap_witness :
    ColumnNullable.applyNullMap (⟨[1], [0]⟩ : ColumnNullable Nat) [0, 1] = none :=
  (C5_applyNullMap Nat).2.1 ⟨[1], [0]⟩ [0, 1] rfl (by decide)

end ColumnNullableSpec
